import Mathlib

/-!
Verification of the session orchestration and stream-multiplexing engine:
a shallow embedding of the automation engine (`pexpect_handler.py`), the
session registry (`session_manager.py`), the idle reaper and the output
fan-out relay loop, together with theorems settling the specified
behavioural claims.

Buffers and chunks are modelled as `List Char` (the code stores decoded
strings); the successive results of the non-blocking channel reads that an
operation performs are supplied as a `reads : List (List Char)` argument,
and the wall-clock timeout as the number `fuel` of poll iterations it
allows.  Raised exceptions are modelled with `Except`.
-/

namespace Orc

/-! ### Automation engine (`pexpect_handler.py`) -/

/-- `p` is a literal prefix of `b`. -/
def isLitPrefix : List Char → List Char → Bool
  | [], _ => true
  | _ :: _, [] => false
  | c :: p, d :: b => c == d && isLitPrefix p b

/-- Leftmost start offset of the literal pattern `p` inside `buf`; models
`re.compile(re.escape(p)).search(buf)` (string patterns are compiled as
escaped literals at line 69 of `pexpect_handler.py`), returning `none`
when `p` occurs nowhere in `buf`. -/
def searchStart (p : List Char) : List Char → Option Nat
  | [] => if isLitPrefix p [] then some 0 else none
  | c :: rest =>
    if isLitPrefix p (c :: rest) then some 0
    else (searchStart p rest).map (· + 1)

/-- `match.end()` of the leftmost occurrence of `p` in `buf`: its start
offset plus the pattern length. -/
def matchEnd (p buf : List Char) : Option Nat :=
  (searchStart p buf).map (· + p.length)

/-- One scan of the pattern list over the current buffer, in list order
(the `for i, pattern in enumerate(compiled_patterns)` loop, lines 84-89 of
`pexpect_handler.py`): the first pattern, by list position, that matches
anywhere wins; the buffer is trimmed past the winning `match.end()`. -/
def checkPatterns : List (List Char) → List Char → Option (Nat × List Char)
  | [], _ => none
  | p :: ps, buf =>
    match matchEnd p buf with
    | some e => some (0, buf.drop e)
    | none => (checkPatterns ps buf).map (fun r => (r.1 + 1, r.2))

/-- Observable state of a `PexpectHandler`: its accumulation buffer
`_buffer` and the bytes written so far to the backend channel. -/
structure PexpectState where
  buffer : List Char
  sent : List Char
deriving DecidableEq

/-- `PexpectHandler.send`: writes the data to the backend channel. -/
def send (data : List Char) (st : PexpectState) : PexpectState :=
  { st with sent := st.sent ++ data }

/-- `PexpectHandler.sendline`: sends the line followed by a newline. -/
def sendline (line : List Char) (st : PexpectState) : PexpectState :=
  send (line ++ ['\n']) st

/-- `PexpectHandler.expect` (lines 74-94): each poll iteration appends the
next channel read to the buffer and scans the patterns in list order; a win
trims the buffer past the match end and returns the winning index; when the
deadline (`fuel` iterations) passes with no win, `TimeoutError` is raised
and the accumulated buffer is left in place. -/
def expect (patterns : List (List Char)) :
    Nat → List (List Char) → PexpectState → Except Unit Nat × PexpectState
  | 0, _, st => (Except.error (), st)
  | fuel + 1, reads, st =>
    let st1 : PexpectState := { st with buffer := st.buffer ++ reads.headD [] }
    match checkPatterns patterns st1.buffer with
    | some (i, rest) => (Except.ok i, { st1 with buffer := rest })
    | none => expect patterns fuel reads.tail st1

/-- `PexpectHandler.send_command` (lines 114-141): clears the buffer, sends
the command plus a line terminator, optionally waits for the prompt (a
`TimeoutError` from `expect` propagates), and returns `self._buffer`. -/
def send_command (command : List Char) (expect_prompt : Bool)
    (prompt : List Char) (fuel : Nat) (reads : List (List Char))
    (st : PexpectState) : Except Unit (List Char) × PexpectState :=
  let st1 : PexpectState := { st with buffer := [] }
  let st2 := sendline command st1
  if expect_prompt then
    match expect [prompt] fuel reads st2 with
    | (Except.ok _, st3) => (Except.ok st3.buffer, st3)
    | (Except.error e, st3) => (Except.error e, st3)
  else
    (Except.ok st2.buffer, st2)

/-! ### Session registry (`session_manager.py`) -/

/-- Registry-visible state of a `Session` (`session_manager.py`, lines
16-41): id, execution-context id, timestamps (modelled as integer clock
values) and the active flag. -/
structure Session where
  session_id : String
  container_id : String
  created_at : Int
  last_activity : Int
  active : Bool
deriving DecidableEq

/-- `Session.send_input` (line 66): updates the last-activity timestamp to
the current time before routing the data. -/
def Session.send_input (now : Int) (s : Session) : Session :=
  { s with last_activity := now }

/-- `Session.close` (lines 81-86): marks the session inactive and releases
its handlers. -/
def Session.close (s : Session) : Session :=
  { s with active := false }

/-- `SessionManager`: the configured ceiling and idle timeout, plus the
`sessions` id-to-Session dict, modelled as an insertion-ordered association
list whose keys are unique (a Python dict). -/
structure SessionManager where
  max_sessions : Nat
  timeout_seconds : Int
  sessions : List (String × Session)
deriving DecidableEq

/-- Errors `create_session` can raise: the capacity `RuntimeError` at line
124 and a connection failure propagating from `pty_handler.connect`. -/
inductive CreateError where
  | capacity
  | connection
deriving DecidableEq

/-- `SessionManager.create_session` (lines 104-151): the capacity check
runs first; then the backend channel is opened (`await
pty_handler.connect`, which re-raises on failure, modelled by the
`connect_ok` flag); only on success is the fresh id inserted.  Errors
leave the manager unchanged. -/
def create_session (m : SessionManager) (container_id : String)
    (new_id : String) (connect_ok : Bool) (now : Int) :
    Except CreateError String × SessionManager :=
  if m.sessions.length ≥ m.max_sessions then
    (Except.error CreateError.capacity, m)
  else if !connect_ok then
    (Except.error CreateError.connection, m)
  else
    (Except.ok new_id,
      { m with sessions :=
          m.sessions ++ [(new_id, ⟨new_id, container_id, now, now, true⟩)] })

/-- `SessionManager.get_session` (lines 153-162): dict lookup, `none` when
the id is unknown. -/
def get_session (m : SessionManager) (sid : String) : Option Session :=
  (m.sessions.find? (fun p => p.1 == sid)).map (fun p => p.2)

/-- `SessionManager.close_session` (lines 164-181): `false` when the id is
unknown; otherwise closes the Session, deletes the entry and returns
`true`. -/
def close_session (m : SessionManager) (sid : String) :
    Bool × SessionManager :=
  match get_session m sid with
  | none => (false, m)
  | some _ =>
    (true, { m with sessions := m.sessions.filter (fun p => p.1 != sid) })

/-- `SessionManager.list_sessions` (lines 183-198): point-in-time
descriptors of every registered session. -/
def list_sessions (m : SessionManager) :
    List (String × String × Int × Int × Bool) :=
  m.sessions.map (fun p =>
    (p.2.session_id, p.2.container_id, p.2.created_at, p.2.last_activity,
      p.2.active))

/-- The `timed_out` list a reaper pass builds (lines 249-252): ids of the
sessions whose inactivity, relative to the pass's current time, strictly
exceeds `timeout_seconds`. -/
def timed_out_ids (m : SessionManager) (now : Int) : List String :=
  (m.sessions.filter
      (fun p => decide (now - p.2.last_activity > m.timeout_seconds))).map
    (fun p => p.1)

/-- One pass of the idle reaper (`_cleanup_loop` body, lines 245-257): take
the current time once, collect the ids whose inactivity strictly exceeds
`timeout_seconds`, and close each of them. -/
def cleanup_pass (m : SessionManager) (now : Int) : SessionManager :=
  (timed_out_ids m now).foldl (fun acc sid => (close_session acc sid).2) m

/-! ### Output fan-out (`_read_output`, lines 200-222) -/

/-- Side effect a subscriber callback may perform on the subscriber list
while it handles a chunk: nothing, `remove_output_callback` of the
subscriber with a given id (`list.remove`, first occurrence), or
`add_output_callback` of a new plain subscriber (`list.append`). -/
inductive CbAction where
  | pure
  | removeFirst (i : Nat)
  | append (newId : Nat)
deriving DecidableEq

/-- A subscriber callback: an identity, the chunks on which its invocation
raises, and the side effect a completed invocation performs on the
subscriber list. -/
structure Sub where
  id : Nat
  throws : List Char → Bool
  action : CbAction

/-- `list.remove`: drop the first element with the given id. -/
def removeById (i : Nat) : List Sub → List Sub
  | [] => []
  | s :: rest => if s.id == i then rest else s :: removeById i rest

/-- Apply a callback's side effect to the subscriber list. -/
def applyAction : CbAction → List Sub → List Sub
  | CbAction.pure, l => l
  | CbAction.removeFirst i, l => removeById i l
  | CbAction.append n, l => l ++ [⟨n, fun _ => false, CbAction.pure⟩]

/-- One delivery pass: the `for callback in session._output_callbacks`
loop with a per-invocation `try/except` (lines 211-215).  Python iterates
the live list by position, so the loop fetches index `idx` from the
current list each step and stops when `idx` reaches the current length; a
raising invocation is caught and logged and the loop continues; a
completed invocation records the delivery and applies its side effect.
`fuel` bounds the iteration count (the list can grow mid-pass); it is
irrelevant whenever it is at least the final list length. -/
def deliverPass (chunk : List Char) :
    Nat → List Sub → Nat → List (Nat × List Char) × List Sub
  | 0, l, _ => ([], l)
  | fuel + 1, l, idx =>
    match l[idx]? with
    | none => ([], l)
    | some s =>
      if s.throws chunk then
        deliverPass chunk fuel l (idx + 1)
      else
        ((s.id, chunk) ::
            (deliverPass chunk fuel (applyAction s.action l) (idx + 1)).1,
          (deliverPass chunk fuel (applyAction s.action l) (idx + 1)).2)

/-- The relay loop (`_read_output`, lines 206-218) over the non-empty
chunks read from the backend channel: one delivery pass per chunk,
threading the subscriber list. -/
def relayLoop (fuel : Nat) (chunks : List (List Char)) (subs : List Sub) :
    List (Nat × List Char) × List Sub :=
  match chunks with
  | [] => ([], subs)
  | c :: cs =>
    let r1 := deliverPass c fuel subs 0
    let r2 := relayLoop fuel cs r1.2
    (r1.1 ++ r2.1, r2.2)

/-! ### Interleaving semantics of registry operations

`create_session` is an `async def` whose `await pty_handler.connect`
(line 130) sits between the capacity check (line 123) and the map
insertion (line 145), so a concurrently scheduled registry operation can
run between the two.  `RegStep` makes each atomic segment a step: a
create that passed the capacity check becomes pending; a pending create
inserts its session; a close removes an id. -/

/-- A registry state: the id-to-Session map plus the creates that passed
the capacity check and are suspended at `await pty_handler.connect`. -/
structure RegState where
  sessions : List (String × Session)
  pending : List (String × String)
deriving DecidableEq

/-- Atomic steps of concurrently scheduled `create_session` and
`close_session` calls against a registry configured with ceiling `maxS`. -/
inductive RegStep (maxS : Nat) : RegState → RegState → Prop where
  | check_pass (s : RegState) (sid cid : String) :
      s.sessions.length < maxS →
      RegStep maxS s ⟨s.sessions, s.pending ++ [(sid, cid)]⟩
  | do_insert (s : RegState) (sid cid : String) (now : Int) :
      (sid, cid) ∈ s.pending →
      RegStep maxS s
        ⟨s.sessions ++ [(sid, ⟨sid, cid, now, now, true⟩)],
          s.pending.erase (sid, cid)⟩
  | do_close (s : RegState) (sid : String) :
      RegStep maxS s
        ⟨s.sessions.filter (fun p => p.1 != sid), s.pending⟩

/-- Reachability by any interleaving of the registry steps. -/
def RegReach (maxS : Nat) : RegState → RegState → Prop :=
  Relation.ReflTransGen (RegStep maxS)

/-! ## Theorems -/

/-! ### Automation engine: pattern matching (claims C1, C2, C3) -/

/-- A winning pattern scan yields the index of the first pattern, in list
order, that matches anywhere in the buffer, and the buffer's suffix
strictly after the matched region's end offset; no earlier-listed pattern
matches at all. -/
theorem checkPatterns_eq_some (patterns : List (List Char)) (buf : List Char)
    (i : Nat) (b : List Char)
    (h : checkPatterns patterns buf = some (i, b)) :
    ∃ hp : i < patterns.length, ∃ e,
      matchEnd (patterns.get ⟨i, hp⟩) buf = some e ∧ b = buf.drop e ∧
      ∀ j (hj : j < i),
        matchEnd (patterns.get ⟨j, Nat.lt_trans hj hp⟩) buf = none := by
  induction patterns generalizing i b with
  | nil => simp [checkPatterns] at h
  | cons p ps ih =>
    rw [checkPatterns] at h
    cases he : matchEnd p buf with
    | some e =>
      rw [he] at h
      obtain ⟨hi, hb⟩ : 0 = i ∧ buf.drop e = b := by simpa using h
      subst hi
      subst hb
      exact ⟨Nat.succ_pos _, e, he, rfl,
        fun j hj => absurd hj (Nat.not_lt_zero j)⟩
    | none =>
      rw [he] at h
      simp only [Option.map_eq_some'] at h
      obtain ⟨⟨i1, b1⟩, hr, heq⟩ := h
      obtain ⟨hi, hb⟩ : i1 + 1 = i ∧ b1 = b := by
        constructor
        · exact congrArg Prod.fst heq
        · exact congrArg Prod.snd heq
      subst hi
      subst hb
      obtain ⟨hp1, e, hme, hbuf, hnone⟩ := ih i1 b1 hr
      refine ⟨Nat.succ_lt_succ hp1, e, hme, hbuf, ?_⟩
      intro j hj
      match j, hj with
      | 0, _ => exact he
      | j1 + 1, hj => exact hnone j1 (Nat.lt_of_succ_lt_succ hj)

/-- Bytes of the first `k + 1` reads appended to the buffer, split as the
first read followed by the next `k`. -/
theorem buffer_take_succ (buf : List Char) (reads : List (List Char))
    (k : Nat) :
    buf ++ ((reads.take (k + 1)).flatten) =
      (buf ++ reads.headD []) ++ ((reads.tail.take k).flatten) := by
  cases reads with
  | nil => simp
  | cons r rs => simp [List.append_assoc]

/-- The bytes of the first read alone. -/
theorem take_one_join (reads : List (List Char)) :
    ((reads.take 1).flatten) = reads.headD [] := by
  cases reads with
  | nil => rfl
  | cons r rs => simp

/-- A successful `expect` run wins at some poll `k` within the deadline,
and its result is exactly the pattern scan of the buffer accumulated up to
that poll. -/
theorem expect_ok_checkPatterns (patterns : List (List Char)) (fuel : Nat)
    (reads : List (List Char)) (st : PexpectState) (i : Nat)
    (st' : PexpectState)
    (h : expect patterns fuel reads st = (Except.ok i, st')) :
    ∃ k, 0 < k ∧ k ≤ fuel ∧
      checkPatterns patterns (st.buffer ++ ((reads.take k).flatten)) =
        some (i, st'.buffer) := by
  induction fuel generalizing reads st with
  | zero => simp [expect] at h
  | succ fuel ih =>
    simp only [expect] at h
    cases hc : checkPatterns patterns (st.buffer ++ reads.headD []) with
    | some r =>
      obtain ⟨i1, rest⟩ := r
      rw [hc] at h
      simp only [Prod.mk.injEq, Except.ok.injEq] at h
      obtain ⟨hi, hst⟩ := h
      subst hi
      refine ⟨1, Nat.one_pos, Nat.succ_le_succ (Nat.zero_le _), ?_⟩
      rw [take_one_join, hc, ← hst]
    | none =>
      rw [hc] at h
      obtain ⟨k, hk0, hkf, hck⟩ := ih reads.tail _ h
      refine ⟨k + 1, Nat.succ_pos _, Nat.succ_le_succ hkf, ?_⟩
      rw [buffer_take_succ]
      exact hck

/-- Claim C1: a successful `expect(patterns, timeout)` returns the index
of the first pattern in the supplied list order whose compiled pattern
matches anywhere in the buffer current at the winning poll — not the
pattern with the leftmost match offset — and leaves the buffer equal to
the suffix strictly after the matched region's end offset. -/
theorem expect_returns_first_pattern_by_list_order
    (patterns : List (List Char)) (fuel : Nat) (reads : List (List Char))
    (st : PexpectState) (i : Nat) (st' : PexpectState)
    (h : expect patterns fuel reads st = (Except.ok i, st')) :
    ∃ k, 0 < k ∧ k ≤ fuel ∧
      ∃ hp : i < patterns.length, ∃ e,
        matchEnd (patterns.get ⟨i, hp⟩)
            (st.buffer ++ ((reads.take k).flatten)) = some e ∧
        st'.buffer = (st.buffer ++ ((reads.take k).flatten)).drop e ∧
        ∀ j (hj : j < i),
          matchEnd (patterns.get ⟨j, Nat.lt_trans hj hp⟩)
            (st.buffer ++ ((reads.take k).flatten)) = none := by
  obtain ⟨k, hk0, hkf, hc⟩ :=
    expect_ok_checkPatterns patterns fuel reads st i st' h
  obtain ⟨hp, e, hme, hb, hnone⟩ :=
    checkPatterns_eq_some patterns _ i st'.buffer hc
  exact ⟨k, hk0, hkf, hp, e, hme, hb, hnone⟩

/-- Claim C1 witness: with buffer content `"ab"` and patterns
`["b", "a"]`, `expect` returns index 0 (list order decides, not match
offset) and the theorem instantiates there. -/
theorem expect_returns_first_pattern_by_list_order_witness :
    expect [['b'], ['a']] 1 [] ⟨['a', 'b'], []⟩ =
      (Except.ok 0, ⟨[], []⟩) ∧
    (∃ k, 0 < k ∧ k ≤ 1 ∧
      ∃ hp : 0 < ([['b'], ['a']] : List (List Char)).length, ∃ e,
        matchEnd (([['b'], ['a']] : List (List Char)).get ⟨0, hp⟩)
            ((PexpectState.mk ['a', 'b'] []).buffer ++
              ((([] : List (List Char)).take k).flatten)) = some e ∧
        (PexpectState.mk [] []).buffer =
          ((PexpectState.mk ['a', 'b'] []).buffer ++
            ((([] : List (List Char)).take k).flatten)).drop e ∧
        ∀ j (hj : j < 0),
          matchEnd (([['b'], ['a']] : List (List Char)).get
              ⟨j, Nat.lt_trans hj hp⟩)
            ((PexpectState.mk ['a', 'b'] []).buffer ++
              ((([] : List (List Char)).take k).flatten)) = none) :=
  ⟨rfl, expect_returns_first_pattern_by_list_order [['b'], ['a']] 1 []
    ⟨['a', 'b'], []⟩ 0 ⟨[], []⟩ rfl⟩

/-- Claim C2 counterexample: after the send, the backend emits
`"out$tail"`; the bytes emitted between the send and the first match of
the prompt `"$"` are `"out"`, yet `send_command` returns `"tail"` — the
residue of the buffer strictly after the prompt match's end offset, not
the bytes preceding the match. -/
theorem send_command_counterexample :
    (send_command ['l', 's'] true ['$'] 1
          [['o', 'u', 't', '$', 't', 'a', 'i', 'l']] ⟨[], []⟩).1 =
        Except.ok ['t', 'a', 'i', 'l'] ∧
      (Except.ok ['t', 'a', 'i', 'l'] : Except Unit (List Char)) ≠
        Except.ok ['o', 'u', 't'] :=
  ⟨rfl, fun hcon => absurd (Except.ok.inj hcon) (by decide)⟩

/-- Claim C2 (amended): `send_command(command, expectPrompt := true,
prompt)` first sets the buffer to empty, then sends the command followed
by a line terminator, then waits for the prompt, and returns the residue
of the output accumulated since the clear strictly after the end offset of
the first prompt match — excluding the prompt itself and everything before
it. -/
theorem send_command_clears_sends_and_returns_residue
    (command prompt r : List Char) (st : PexpectState) (e : Nat)
    (h : matchEnd prompt r = some e) :
    send_command command true prompt 1 [r] st =
      (Except.ok (r.drop e),
        ⟨r.drop e, st.sent ++ (command ++ ['\n'])⟩) := by
  simp [send_command, sendline, send, expect, checkPatterns, h]

/-- Claim C2 witness: command `"ls"`, prompt `"$"`, emitted bytes
`"out$tail"`: the prompt first matches with end offset 4 and the call
returns `"tail"`, having cleared the buffer and sent `"ls\n"`. -/
theorem send_command_clears_sends_and_returns_residue_witness :
    matchEnd ['$'] ['o', 'u', 't', '$', 't', 'a', 'i', 'l'] = some 4 ∧
    send_command ['l', 's'] true ['$'] 1
        [['o', 'u', 't', '$', 't', 'a', 'i', 'l']] ⟨[], []⟩ =
      (Except.ok (['o', 'u', 't', '$', 't', 'a', 'i', 'l'].drop 4),
        ⟨['o', 'u', 't', '$', 't', 'a', 'i', 'l'].drop 4,
          (PexpectState.mk [] []).sent ++ (['l', 's'] ++ ['\n'])⟩) :=
  ⟨rfl, send_command_clears_sends_and_returns_residue ['l', 's'] ['$']
    ['o', 'u', 't', '$', 't', 'a', 'i', 'l'] ⟨[], []⟩ 4 rfl⟩

/-- Claim C3: when no supplied pattern matches the accumulated buffer at
any poll within the deadline, `expect` fails with `TimeoutError` (it never
returns an index) and the failed call discards nothing: the buffer
afterwards equals its prior content extended by every byte read during the
attempt. -/
theorem expect_timeout_raises_and_preserves_buffer
    (patterns : List (List Char)) (fuel : Nat) (reads : List (List Char))
    (st : PexpectState)
    (h : ∀ k, 0 < k → k ≤ fuel →
      checkPatterns patterns (st.buffer ++ ((reads.take k).flatten)) = none) :
    expect patterns fuel reads st =
      (Except.error (),
        { st with buffer := st.buffer ++ ((reads.take fuel).flatten) }) := by
  induction fuel generalizing reads st with
  | zero => simp [expect]
  | succ fuel ih =>
    have h1 : checkPatterns patterns (st.buffer ++ reads.headD []) = none := by
      have := h 1 Nat.one_pos (Nat.succ_le_succ (Nat.zero_le _))
      rwa [take_one_join] at this
    simp only [expect]
    rw [h1]
    have h2 : ∀ k, 0 < k → k ≤ fuel →
        checkPatterns patterns
          ((st.buffer ++ reads.headD []) ++ ((reads.tail.take k).flatten)) =
          none := by
      intro k hk0 hkf
      rw [← buffer_take_succ]
      exact h (k + 1) (Nat.succ_pos _) (Nat.succ_le_succ hkf)
    have h3 := ih reads.tail ⟨st.buffer ++ reads.headD [], st.sent⟩ h2
    rw [buffer_take_succ]
    exact h3

/-- Claim C3 witness: pattern `"x"` never matches; starting from buffer
`"q"` with one read `"ab"` and a two-poll deadline, `expect` raises and
afterwards the buffer is `"qab"` — the prior content extended by the bytes
read during the attempt. -/
theorem expect_timeout_raises_and_preserves_buffer_witness :
    (∀ k, 0 < k → k ≤ 2 →
      checkPatterns [['x']]
        ((PexpectState.mk ['q'] []).buffer ++
          ((([['a', 'b']] : List (List Char)).take k).flatten)) = none) ∧
    expect [['x']] 2 [['a', 'b']] ⟨['q'], []⟩ =
      (Except.error (), ⟨['q', 'a', 'b'], []⟩) := by
  have hk : ∀ k, 0 < k → k ≤ 2 →
      checkPatterns [['x']]
        ((PexpectState.mk ['q'] []).buffer ++
          ((([['a', 'b']] : List (List Char)).take k).flatten)) = none := by
    intro k hk0 hk2
    interval_cases k
    · decide
    · decide
  exact ⟨hk, expect_timeout_raises_and_preserves_buffer [['x']] 2
    [['a', 'b']] ⟨['q'], []⟩ hk⟩

/-! ### Session registry (claims C4, C5, C6, C7, C10) -/

/-- Claim C4: with the session count at or above the configured maximum,
`create_session` fails with the capacity error and returns the registry
unchanged — no session is registered and no id is returned. -/
theorem create_session_at_capacity_fails (m : SessionManager)
    (cid nid : String) (ok : Bool) (now : Int)
    (h : m.sessions.length ≥ m.max_sessions) :
    create_session m cid nid ok now =
      (Except.error CreateError.capacity, m) := by
  simp [create_session, h]

/-- Claim C4 witness: a registry at its maximum of one session rejects a
create and is returned unchanged. -/
theorem create_session_at_capacity_fails_witness :
    create_session ⟨1, 3600, [("s0", ⟨"s0", "c0", 0, 0, true⟩)]⟩
        "c1" "s1" true 5 =
      (Except.error CreateError.capacity,
        ⟨1, 3600, [("s0", ⟨"s0", "c0", 0, 0, true⟩)]⟩) :=
  create_session_at_capacity_fails
    ⟨1, 3600, [("s0", ⟨"s0", "c0", 0, 0, true⟩)]⟩ "c1" "s1" true 5
    (by decide)

/-- Claim C10: when opening the backend channel raises during create (and
capacity admits the request), the exception propagates to the caller as a
connection error and the registry is unchanged: the generated id is never
inserted, a subsequent get of it reports not-found and the listing shows
no new entry. -/
theorem create_session_connect_failure_is_atomic (m : SessionManager)
    (cid nid : String) (now : Int)
    (hcap : m.sessions.length < m.max_sessions)
    (hfresh : get_session m nid = none) :
    create_session m cid nid false now =
      (Except.error CreateError.connection, m) ∧
    get_session (create_session m cid nid false now).2 nid = none ∧
    list_sessions (create_session m cid nid false now).2 =
      list_sessions m := by
  have h1 : create_session m cid nid false now =
      (Except.error CreateError.connection, m) := by
    simp [create_session, Nat.not_le.mpr hcap]
  refine ⟨h1, ?_, ?_⟩
  · rw [h1]
    exact hfresh
  · rw [h1]

/-- Claim C10 witness: a connect failure against an empty registry with
room for one session leaves the registry empty with the id unknown. -/
theorem create_session_connect_failure_is_atomic_witness :
    create_session ⟨1, 3600, []⟩ "c0" "s0" false 7 =
      (Except.error CreateError.connection, ⟨1, 3600, []⟩) ∧
    get_session (create_session ⟨1, 3600, []⟩ "c0" "s0" false 7).2 "s0" =
      none ∧
    list_sessions (create_session ⟨1, 3600, []⟩ "c0" "s0" false 7).2 =
      list_sessions ⟨1, 3600, []⟩ :=
  create_session_connect_failure_is_atomic ⟨1, 3600, []⟩ "c0" "s0" 7
    (by decide) rfl

/-- The registry after `close_session`: exactly the entries whose key
differs from the closed id (when the id is unknown no entry has that key,
so the filter is the identity). -/
theorem close_session_snd (m : SessionManager) (sid : String) :
    (close_session m sid).2 =
      { m with sessions := m.sessions.filter (fun p => p.1 != sid) } := by
  cases hg : get_session m sid with
  | none =>
    have hall : ∀ x ∈ m.sessions, ¬((fun p : String × Session => p.1 == sid) x = true) := by
      have hfind : m.sessions.find? (fun p => p.1 == sid) = none := by
        have := hg
        unfold get_session at this
        exact Option.map_eq_none'.mp this
      exact List.find?_eq_none.mp hfind
    have hf : m.sessions.filter (fun p => p.1 != sid) = m.sessions :=
      List.filter_eq_self.mpr (fun a ha => by
        simpa [bne] using hall a ha)
    simp [close_session, hg, hf]
  | some s => simp [close_session, hg]

/-- Claim C6: `close_session` returns false on an unknown id and leaves
the registry unchanged; on a registered id it removes the entry and
returns true, and an immediate second close of the same id reports
not-found — idempotent in effect. -/
theorem close_session_idempotent_in_effect (m : SessionManager)
    (sid : String) :
    (get_session m sid = none → close_session m sid = (false, m)) ∧
    (∀ s, get_session m sid = some s →
      (close_session m sid).1 = true ∧
      get_session (close_session m sid).2 sid = none ∧
      close_session (close_session m sid).2 sid =
        (false, (close_session m sid).2)) := by
  constructor
  · intro h
    simp [close_session, h]
  · intro s h
    have h1 : (close_session m sid).1 = true := by simp [close_session, h]
    have h2 : get_session (close_session m sid).2 sid = none := by
      rw [close_session_snd]
      unfold get_session
      rw [Option.map_eq_none', List.find?_eq_none]
      intro x hx
      have hxk := (List.mem_filter.mp hx).2
      simpa [bne] using hxk
    refine ⟨h1, h2, ?_⟩
    generalize hm2 : (close_session m sid).2 = m2 at h2 ⊢
    simp [close_session, h2]

/-- Claim C6 witness: closing the only session succeeds, removes it, and
an immediate second close reports not-found. -/
theorem close_session_idempotent_in_effect_witness :
    (close_session ⟨5, 3600, [("s1", ⟨"s1", "c1", 0, 0, true⟩)]⟩ "s1").1 =
        true ∧
    get_session
        (close_session ⟨5, 3600, [("s1", ⟨"s1", "c1", 0, 0, true⟩)]⟩
          "s1").2 "s1" = none ∧
    close_session
        (close_session ⟨5, 3600, [("s1", ⟨"s1", "c1", 0, 0, true⟩)]⟩
          "s1").2 "s1" =
      (false,
        (close_session ⟨5, 3600, [("s1", ⟨"s1", "c1", 0, 0, true⟩)]⟩
          "s1").2) :=
  (close_session_idempotent_in_effect
      ⟨5, 3600, [("s1", ⟨"s1", "c1", 0, 0, true⟩)]⟩ "s1").2
    ⟨"s1", "c1", 0, 0, true⟩ rfl

/-- Folding `close_session` over a list of ids removes exactly the
entries whose key occurs in the list. -/
theorem foldl_close_sessions (L : List String) (m : SessionManager) :
    (L.foldl (fun acc sid => (close_session acc sid).2) m).sessions =
      m.sessions.filter (fun p => decide (p.1 ∉ L)) := by
  induction L generalizing m with
  | nil =>
    simp only [List.foldl_nil]
    exact (List.filter_eq_self.mpr (fun a _ => by simp)).symm
  | cons c cs ih =>
    rw [List.foldl_cons, ih, close_session_snd]
    simp only []
    rw [List.filter_filter]
    refine List.filter_congr ?_
    intro x _
    by_cases h1 : x.1 = c
    · simp [h1]
    · by_cases h2 : x.1 ∈ cs <;> simp [h1, h2]

/-- In a list with pairwise-distinct keys, two members with the same key
are the same entry. -/
theorem eq_of_mem_of_nodup_keys (a b : String × Session) :
    ∀ l : List (String × Session), (l.map Prod.fst).Nodup →
      a ∈ l → b ∈ l → a.1 = b.1 → a = b := by
  intro l
  induction l with
  | nil => intro _ ha; cases ha
  | cons x xs ih =>
    intro hnd ha hb hab
    rw [List.map_cons, List.nodup_cons] at hnd
    obtain ⟨hx, hnd1⟩ := hnd
    rcases List.mem_cons.mp ha with rfl | ha1
    · rcases List.mem_cons.mp hb with rfl | hb1
      · rfl
      · exact absurd (by rw [hab]; exact List.mem_map_of_mem Prod.fst hb1) hx
    · rcases List.mem_cons.mp hb with rfl | hb1
      · exact absurd (by rw [← hab]; exact List.mem_map_of_mem Prod.fst ha1)
          hx
      · exact ih hnd1 ha1 hb1 hab

/-- A found entry survives a filter that keeps it: the earlier entries
either fail the search predicate or are removed, so the search still
returns the same entry. -/
theorem find?_filter_of_found {α : Type} (p q : α → Bool) (l : List α)
    (a : α) (h : l.find? p = some a) (hq : q a = true) :
    (l.filter q).find? p = some a := by
  induction l with
  | nil => simp at h
  | cons x xs ih =>
    by_cases hx : p x = true
    · rw [List.find?_cons_of_pos _ hx] at h
      obtain rfl : x = a := Option.some.inj h
      rw [List.filter_cons_of_pos hq]
      exact List.find?_cons_of_pos _ hx
    · rw [List.find?_cons_of_neg _ hx] at h
      by_cases hqx : q x = true
      · rw [List.filter_cons_of_pos hqx, List.find?_cons_of_neg _ hx]
        exact ih h
      · rw [List.filter_cons_of_neg (by simpa using hqx)]
        exact ih h

/-- Claim C7: a reaper pass closes and removes every registered session
whose last-activity is strictly older than `timeout_seconds` relative to
the pass's current time, while every session whose last-activity lies
within the window (for example because `send_input` refreshed it) survives
the pass unchanged. -/
theorem cleanup_pass_reaps_exactly_expired (m : SessionManager) (now : Int)
    (sid : String) (s : Session)
    (hnd : (m.sessions.map Prod.fst).Nodup)
    (hs : get_session m sid = some s) :
    (now - s.last_activity > m.timeout_seconds →
        get_session (cleanup_pass m now) sid = none) ∧
    (now - s.last_activity ≤ m.timeout_seconds →
        get_session (cleanup_pass m now) sid = some s) := by
  have hsess : (cleanup_pass m now).sessions =
      m.sessions.filter (fun p => decide (p.1 ∉ timed_out_ids m now)) :=
    foldl_close_sessions (timed_out_ids m now) m
  obtain ⟨a, hfind, ha2⟩ := Option.map_eq_some'.mp hs
  have hamem : a ∈ m.sessions := List.mem_of_find?_eq_some hfind
  have hakey : a.1 = sid := by
    have := List.find?_some hfind
    simpa using this
  have haeq : a = (sid, s) := Prod.ext hakey ha2
  constructor
  · intro hexp
    have hsidmem : sid ∈ timed_out_ids m now := by
      unfold timed_out_ids
      refine List.mem_map.mpr ⟨(sid, s), ?_, rfl⟩
      refine List.mem_filter.mpr ⟨haeq ▸ hamem, ?_⟩
      simpa using hexp
    unfold get_session
    rw [Option.map_eq_none', List.find?_eq_none]
    intro x hx
    rw [hsess] at hx
    obtain ⟨hxl, hxq⟩ := List.mem_filter.mp hx
    intro hxk
    have hxk1 : x.1 = sid := by simpa using hxk
    rw [hxk1] at hxq
    simp only [decide_eq_true_eq] at hxq
    exact hxq hsidmem
  · intro hfresh
    have hsidnot : sid ∉ timed_out_ids m now := by
      intro hmem
      unfold timed_out_ids at hmem
      obtain ⟨b, hbmem, hbk⟩ := List.mem_map.mp hmem
      obtain ⟨hbl, hbp⟩ := List.mem_filter.mp hbmem
      have hb : b = (sid, s) :=
        eq_of_mem_of_nodup_keys b (sid, s) m.sessions hnd hbl
          (haeq ▸ hamem) hbk
      rw [hb] at hbp
      simp only [decide_eq_true_eq] at hbp
      omega
    unfold get_session
    rw [hsess]
    have hfound := find?_filter_of_found (fun p => p.1 == sid)
      (fun p => decide (p.1 ∉ timed_out_ids m now)) m.sessions (sid, s)
      (haeq ▸ hfind) (by simpa using hsidnot)
    rw [hfound]
    rfl

/-- Claim C7 witness: at time 120 with a 50-second window, the session
idle since time 0 is reaped by the pass, while the session refreshed by
`send_input` at time 100 survives the same pass unchanged. -/
theorem cleanup_pass_reaps_exactly_expired_witness :
    get_session
        (cleanup_pass
          ⟨9, 50,
            [("old", ⟨"old", "c", 0, 0, true⟩),
              ("fresh", Session.send_input 100 ⟨"fresh", "c", 0, 0, true⟩)]⟩
          120) "old" = none ∧
    get_session
        (cleanup_pass
          ⟨9, 50,
            [("old", ⟨"old", "c", 0, 0, true⟩),
              ("fresh", Session.send_input 100 ⟨"fresh", "c", 0, 0, true⟩)]⟩
          120) "fresh" =
      some (Session.send_input 100 ⟨"fresh", "c", 0, 0, true⟩) :=
  ⟨(cleanup_pass_reaps_exactly_expired
      ⟨9, 50,
        [("old", ⟨"old", "c", 0, 0, true⟩),
          ("fresh", Session.send_input 100 ⟨"fresh", "c", 0, 0, true⟩)]⟩
      120 "old" ⟨"old", "c", 0, 0, true⟩ (by decide) (by decide)).1
      (by decide),
    (cleanup_pass_reaps_exactly_expired
      ⟨9, 50,
        [("old", ⟨"old", "c", 0, 0, true⟩),
          ("fresh", Session.send_input 100 ⟨"fresh", "c", 0, 0, true⟩)]⟩
      120 "fresh" (Session.send_input 100 ⟨"fresh", "c", 0, 0, true⟩)
      (by decide) (by decide)).2 (by decide)⟩

/-- Claim C5 (refuted — the race the code permits): `create_session`
suspends at `await pty_handler.connect()` (line 130) between its capacity
check (line 123) and its map insertion (line 145), with no mutual
exclusion, so two concurrently scheduled creates can both pass the check
against a ceiling of one and then both insert: a registry state with two
entries is reachable, exceeding the configured maximum. -/
theorem capacity_check_then_insert_race :
    ∃ st : RegState, RegReach 1 ⟨[], []⟩ st ∧ st.sessions.length > 1 := by
  refine ⟨⟨[("a", ⟨"a", "c", 0, 0, true⟩), ("b", ⟨"b", "c", 0, 0, true⟩)],
    []⟩, ?_, by decide⟩
  have h1 : RegStep 1 ⟨[], []⟩ ⟨[], [("a", "c")]⟩ :=
    @RegStep.check_pass 1 ⟨[], []⟩ "a" "c" (by decide)
  have h2 : RegStep 1 ⟨[], [("a", "c")]⟩
      ⟨[], [("a", "c"), ("b", "c")]⟩ :=
    @RegStep.check_pass 1 ⟨[], [("a", "c")]⟩ "b" "c" (by decide)
  have h3 : RegStep 1 ⟨[], [("a", "c"), ("b", "c")]⟩
      ⟨[("a", ⟨"a", "c", 0, 0, true⟩)], [("b", "c")]⟩ :=
    @RegStep.do_insert 1 ⟨[], [("a", "c"), ("b", "c")]⟩ "a" "c" 0
      (by decide)
  have h4 : RegStep 1 ⟨[("a", ⟨"a", "c", 0, 0, true⟩)], [("b", "c")]⟩
      ⟨[("a", ⟨"a", "c", 0, 0, true⟩), ("b", ⟨"b", "c", 0, 0, true⟩)],
        []⟩ :=
    @RegStep.do_insert 1 ⟨[("a", ⟨"a", "c", 0, 0, true⟩)], [("b", "c")]⟩
      "b" "c" 0 (by decide)
  exact Relation.ReflTransGen.head h1 (Relation.ReflTransGen.head h2
    (Relation.ReflTransGen.head h3 (Relation.ReflTransGen.single h4)))

/-! ### Output fan-out (claims C8, C9) -/

/-- A delivery pass that starts at or past the end of the list does
nothing. -/
theorem deliverPass_out_of_range (chunk : List Char) (fuel : Nat)
    (l : List Sub) (idx : Nat) (h : l.length ≤ idx) :
    deliverPass chunk fuel l idx = ([], l) := by
  cases fuel with
  | zero => rfl
  | succ fuel =>
    rw [deliverPass, List.getElem?_eq_none h]

/-- With every callback side-effect-free, a delivery pass from index
`idx` invokes each remaining subscriber in order, records a delivery for
exactly those whose invocation does not raise, and leaves the subscriber
list unchanged. -/
theorem deliverPass_pure_spec (chunk : List Char) (fuel : Nat) :
    ∀ (l : List Sub) (idx : Nat),
      (∀ s ∈ l, s.action = CbAction.pure) → l.length ≤ idx + fuel →
      deliverPass chunk fuel l idx =
        (((l.drop idx).filter (fun s => !s.throws chunk)).map
            (fun s => (s.id, chunk)), l) := by
  induction fuel with
  | zero =>
    intro l idx ha hlen
    rw [Nat.add_zero] at hlen
    rw [List.drop_eq_nil_of_le hlen]
    rfl
  | succ fuel ih =>
    intro l idx ha hlen
    by_cases h : idx < l.length
    · have hget : l[idx]? = some l[idx] := List.getElem?_eq_getElem h
      have hdrop : l.drop idx = l[idx] :: l.drop (idx + 1) :=
        List.drop_eq_getElem_cons h
      have hmem : l[idx] ∈ l := List.getElem_mem h
      cases hthrow : l[idx].throws chunk with
      | true =>
        simp only [deliverPass, hget, hthrow, if_true]
        rw [ih l (idx + 1) ha (by omega), hdrop, List.filter_cons]
        simp only [hthrow, Bool.not_true, Bool.false_eq_true, if_false]
      | false =>
        have hact : l[idx].action = CbAction.pure := ha _ hmem
        simp only [deliverPass, hget, hthrow, hact, applyAction,
          Bool.false_eq_true, if_false]
        rw [ih l (idx + 1) ha (by omega), hdrop, List.filter_cons]
        simp only [hthrow, Bool.not_false, if_true, List.map_cons]
    · have hlen2 : l.length ≤ idx := Nat.not_lt.mp h
      rw [deliverPass_out_of_range chunk _ l idx hlen2,
        List.drop_eq_nil_of_le hlen2]
      rfl

/-- Claim C8: a subscriber invocation that raises is caught: it does not
prevent delivery of that chunk to the remaining subscribers, does not
remove the failing subscriber from the set, and does not terminate the
relay loop; in particular, with two subscribers where the first throws on
every delivery, the second still receives every chunk emitted by the
backend, in emission order. -/
theorem relay_isolates_subscriber_failures :
    (∀ (subs : List Sub) (chunk : List Char) (fuel : Nat),
        (∀ s ∈ subs, s.action = CbAction.pure) → subs.length ≤ fuel →
        deliverPass chunk fuel subs 0 =
          ((subs.filter (fun s => !s.throws chunk)).map
              (fun s => (s.id, chunk)), subs)) ∧
    (∀ (a b : Sub) (chunks : List (List Char)) (fuel : Nat),
        (∀ c, a.throws c = true) → (∀ c, b.throws c = false) →
        b.action = CbAction.pure → 2 ≤ fuel →
        relayLoop fuel chunks [a, b] =
          (chunks.map (fun c => (b.id, c)), [a, b])) := by
  constructor
  · intro subs chunk fuel ha hf
    have h := deliverPass_pure_spec chunk fuel subs 0 ha (by omega)
    rw [List.drop_zero] at h
    exact h
  · intro a b chunks fuel hat hbt hba hf
    obtain ⟨f, rfl⟩ : ∃ f, fuel = f + 2 := ⟨fuel - 2, by omega⟩
    have hpass : ∀ c : List Char,
        deliverPass c (f + 2) [a, b] 0 = ([(b.id, c)], [a, b]) := by
      intro c
      have h2 : deliverPass c f [a, b] 2 = ([], [a, b]) :=
        deliverPass_out_of_range c f [a, b] 2 (by simp)
      simp [deliverPass, hat c, hbt c, hba, applyAction, h2]
    induction chunks with
    | nil => rfl
    | cons c cs ihc =>
      simp only [relayLoop, hpass c, ihc, List.map_cons]
      rfl

/-- Claim C8 witness: subscriber 0 throws on every delivery, subscriber 1
never does: the pass still delivers to subscriber 1, the subscriber set is
unchanged, and over the chunks `"x"`, `"y"` subscriber 1 receives both in
emission order. -/
theorem relay_isolates_subscriber_failures_witness :
    deliverPass ['x'] 2
        [⟨0, fun _ => true, CbAction.pure⟩,
          ⟨1, fun _ => false, CbAction.pure⟩] 0 =
      ((([⟨0, fun _ => true, CbAction.pure⟩,
            ⟨1, fun _ => false, CbAction.pure⟩] : List Sub).filter
            (fun s => !s.throws ['x'])).map (fun s => (s.id, ['x'])),
        [⟨0, fun _ => true, CbAction.pure⟩,
          ⟨1, fun _ => false, CbAction.pure⟩]) ∧
    relayLoop 2 [['x'], ['y']]
        [⟨0, fun _ => true, CbAction.pure⟩,
          ⟨1, fun _ => false, CbAction.pure⟩] =
      ([['x'], ['y']].map
          (fun c => ((⟨1, fun _ => false, CbAction.pure⟩ : Sub).id, c)),
        [⟨0, fun _ => true, CbAction.pure⟩,
          ⟨1, fun _ => false, CbAction.pure⟩]) :=
  ⟨relay_isolates_subscriber_failures.1
      [⟨0, fun _ => true, CbAction.pure⟩,
        ⟨1, fun _ => false, CbAction.pure⟩] ['x'] 2
      (by intro s hs; fin_cases hs <;> rfl) (by decide),
    relay_isolates_subscriber_failures.2
      ⟨0, fun _ => true, CbAction.pure⟩ ⟨1, fun _ => false, CbAction.pure⟩
      [['x'], ['y']] 2 (fun _ => rfl) (fun _ => rfl) rfl (by decide)⟩

/-- Claim C9 counterexample: the relay loop iterates the live subscriber
list, not a start-of-pass snapshot.  Subscriber 0 removes itself while
handling the chunk, which shifts subscriber 1 — present at the start of
the pass — into the already-consumed position, so subscriber 1 never
receives the chunk; and a subscriber appended mid-pass receives that same
chunk in the same pass. -/
theorem relay_live_list_counterexample :
    (deliverPass ['x'] 4
          [⟨0, fun _ => false, CbAction.removeFirst 0⟩,
            ⟨1, fun _ => false, CbAction.pure⟩] 0).1 = [(0, ['x'])] ∧
    ((1 : Nat), ['x']) ∉ (deliverPass ['x'] 4
          [⟨0, fun _ => false, CbAction.removeFirst 0⟩,
            ⟨1, fun _ => false, CbAction.pure⟩] 0).1 ∧
    (deliverPass ['x'] 4 [⟨0, fun _ => false, CbAction.append 5⟩] 0).1 =
      [(0, ['x']), (5, ['x'])] :=
  ⟨rfl, by decide, rfl⟩

/-- Claim C9 (amended): each chunk is delivered by iterating the live
subscriber list by position; when no subscriber callback mutates the set
during the pass, every subscriber present at the start of the pass (whose
invocation does not raise) receives the chunk exactly once, in list order,
without error, and the set is unchanged — but a callback that mutates the
set mid-pass can skip a start-of-pass subscriber, and the chunk is
delivered to a subscriber added mid-pass. -/
theorem deliverPass_no_mutation_delivers_in_order (subs : List Sub)
    (chunk : List Char) (fuel : Nat)
    (hact : ∀ s ∈ subs, s.action = CbAction.pure)
    (hthrow : ∀ s ∈ subs, s.throws chunk = false)
    (hfuel : subs.length ≤ fuel) :
    deliverPass chunk fuel subs 0 =
      (subs.map (fun s => (s.id, chunk)), subs) := by
  have h := deliverPass_pure_spec chunk fuel subs 0 hact (by omega)
  rw [List.drop_zero,
    List.filter_eq_self.mpr (fun s hs => by rw [hthrow s hs]; rfl)] at h
  exact h

/-- Claim C9 witness: two side-effect-free, non-raising subscribers both
receive the chunk, in list order, and the set is unchanged. -/
theorem deliverPass_no_mutation_delivers_in_order_witness :
    deliverPass ['z'] 2
        [⟨3, fun _ => false, CbAction.pure⟩,
          ⟨4, fun _ => false, CbAction.pure⟩] 0 =
      (([⟨3, fun _ => false, CbAction.pure⟩,
          ⟨4, fun _ => false, CbAction.pure⟩] : List Sub).map
          (fun s => (s.id, ['z'])),
        [⟨3, fun _ => false, CbAction.pure⟩,
          ⟨4, fun _ => false, CbAction.pure⟩]) :=
  deliverPass_no_mutation_delivers_in_order
    [⟨3, fun _ => false, CbAction.pure⟩,
      ⟨4, fun _ => false, CbAction.pure⟩] ['z'] 2
    (by intro s hs; fin_cases hs <;> rfl)
    (by intro s hs; fin_cases hs <;> rfl) (by decide)

end Orc
